import Mathlib

/-!
Verification of the to-do list application state machine
(`src/app/index.tsx`).

The component keeps form fields `task`, `priority`, `category`, a list
`tasks` of task records, and an optional `editingIndex`.  The operations
`addTask`, `deleteTask`, `toggleTaskCompletion` and `editTask` are embedded
below as pure functions on an explicit state record; the `Date.now()`
timestamp used for fresh ids is passed in as an explicit parameter.
-/

namespace Todo

/-- A task record, mirroring
`{ task: string; priority: string; category: string; completed: boolean; id: string }`. -/
structure Task where
  task : String
  priority : String
  category : String
  completed : Bool
  id : String
deriving DecidableEq, Repr

/-- The component state: the three form fields, the task list and the
optional editing index (`useState` initial values give `initialState`). -/
structure AppState where
  task : String
  priority : String
  category : String
  tasks : List Task
  editingIndex : Option Nat
deriving DecidableEq, Repr

/-- Initial state from the `useState` initializers:
`""`, `"Medium"`, `"Work"`, `[]`, `null`. -/
def initialState : AppState :=
  { task := "", priority := "Medium", category := "Work", tasks := [], editingIndex := none }

/-- The falsiness test of `task.trim()`: the trimmed string is empty exactly
when every character of the string is whitespace. -/
def isBlank (s : String) : Bool :=
  s.data.all Char.isWhitespace

/-- Embedding of `addTask`.  `now` is the `Date.now()` value; the new id is
`now.toString()`.  If the trimmed form text is empty nothing happens.  In the
editing branch the task at `editingIndex` is overwritten field-wise keeping
`completed` and `id`; `none` is returned when `editingIndex` is out of range
(there the JavaScript code would extend the array with holes, leaving the
typed model).  In the append branch a new task is pushed at the end.  On
success the form is reset to `""`, `"Medium"`, `"Work"` and the editing index
is cleared. -/
def addTask (now : Nat) (s : AppState) : Option AppState :=
  if isBlank s.task then
    some s
  else
    match s.editingIndex with
    | some i =>
      match s.tasks[i]? with
      | some old =>
        some { s with
                 tasks := s.tasks.set i
                   { old with task := s.task, priority := s.priority, category := s.category },
                 editingIndex := none,
                 task := "", priority := "Medium", category := "Work" }
      | none => none
    | none =>
      some { s with
               tasks := s.tasks ++
                 [{ task := s.task, priority := s.priority, category := s.category,
                    completed := false, id := toString now }],
               task := "", priority := "Medium", category := "Work" }

/-- JavaScript `Array.prototype.filter` with the element index made explicit:
`filterIdxAux p i l` keeps exactly the elements of `l` whose position
(counted from `i`) satisfies `p`. -/
def filterIdxAux (p : Int → Bool) (i : Int) : List Task → List Task
  | [] => []
  | a :: as => if p i then a :: filterIdxAux p (i + 1) as else filterIdxAux p (i + 1) as

/-- Embedding of `deleteTask` on the task list:
`tasks.filter((_, i) => i !== index)`.  The index is an `Int` because the
JavaScript parameter is an arbitrary number. -/
def deleteTask (index : Int) (ts : List Task) : List Task :=
  filterIdxAux (fun i => i ≠ index) 0 ts

/-- `deleteTask` as a state transformer: only `setTasks` is called, the form
fields and the editing index are untouched. -/
def deleteTaskState (index : Int) (s : AppState) : AppState :=
  { s with tasks := deleteTask index s.tasks }

/-- Embedding of `toggleTaskCompletion` on the task list: flips `completed`
of the task at `index`.  Out of range the JavaScript code throws a
`TypeError` before any state update, modelled as `none`. -/
def toggleTaskCompletion (index : Nat) (ts : List Task) : Option (List Task) :=
  match ts[index]? with
  | some t => some (ts.set index { t with completed := !t.completed })
  | none => none

/-- `toggleTaskCompletion` as a state transformer. -/
def toggleState (index : Nat) (s : AppState) : Option AppState :=
  match toggleTaskCompletion index s.tasks with
  | some ts => some { s with tasks := ts }
  | none => none

/-- Embedding of `editTask`: loads the fields of the task at `index` into the
form and records the index as the editing target.  Out of range the
JavaScript code reads fields of `undefined` and throws, modelled as `none`. -/
def editTask (index : Nat) (s : AppState) : Option AppState :=
  match s.tasks[index]? with
  | some t =>
    some { s with task := t.task, priority := t.priority, category := t.category,
                  editingIndex := some index }
  | none => none

/-- The ids of the tasks in a list, in order. -/
def taskIds (ts : List Task) : List String :=
  ts.map Task.id

/-- One user-interaction step of the component: typing into the form,
picking a priority or category, submitting (`addTask` with some clock
value), deleting, toggling, or starting an edit. -/
inductive Step : AppState → AppState → Prop
  | setTask (s : AppState) (t : String) : Step s { s with task := t }
  | setPriority (s : AppState) (p : String) : Step s { s with priority := p }
  | setCategory (s : AppState) (c : String) : Step s { s with category := c }
  | add (s s' : AppState) (now : Nat) : addTask now s = some s' → Step s s'
  | del (s : AppState) (i : Int) : Step s (deleteTaskState i s)
  | toggle (s s' : AppState) (i : Nat) : toggleState i s = some s' → Step s s'
  | edit (s s' : AppState) (i : Nat) : editTask i s = some s' → Step s s'

/-- States reachable from the initial state by user interaction. -/
inductive Reachable : AppState → Prop
  | init : Reachable initialState
  | step {s s' : AppState} : Reachable s → Step s s' → Reachable s'

/-- Reachability under the freshness discipline: every submission receives a
clock value whose string is not already an id in the list (the behaviour of
`Date.now()` when successive additions fall in distinct milliseconds). -/
inductive ReachableFresh : AppState → Prop
  | init : ReachableFresh initialState
  | setTask {s : AppState} (t : String) :
      ReachableFresh s → ReachableFresh { s with task := t }
  | setPriority {s : AppState} (p : String) :
      ReachableFresh s → ReachableFresh { s with priority := p }
  | setCategory {s : AppState} (c : String) :
      ReachableFresh s → ReachableFresh { s with category := c }
  | add {s s' : AppState} (now : Nat) :
      ReachableFresh s → addTask now s = some s' →
      toString now ∉ taskIds s.tasks → ReachableFresh s'
  | del {s : AppState} (i : Int) :
      ReachableFresh s → ReachableFresh (deleteTaskState i s)
  | toggle {s s' : AppState} (i : Nat) :
      ReachableFresh s → toggleState i s = some s' → ReachableFresh s'
  | edit {s s' : AppState} (i : Nat) :
      ReachableFresh s → editTask i s = some s' → ReachableFresh s'

/-! ### Concrete sample values, used to evaluate the operations -/

/-- A sample task. -/
def tA : Task :=
  { task := "alpha", priority := "High", category := "Work", completed := false, id := "1" }

/-- A sample task. -/
def tB : Task :=
  { task := "beta", priority := "Low", category := "Personal", completed := true, id := "2" }

/-- A sample task. -/
def tC : Task :=
  { task := "gamma", priority := "Medium", category := "Shopping", completed := false, id := "3" }

/-- A sample task list. -/
def sampleTasks : List Task := [tA, tB, tC]

/-- A sample state with a non-blank form text and no editing target. -/
def sampleState : AppState :=
  { task := "buy milk", priority := "High", category := "Personal",
    tasks := sampleTasks, editingIndex := none }

/-- A sample state that is editing the task at index 1. -/
def sampleEditState : AppState :=
  { sampleState with editingIndex := some 1 }

/-- A sample state whose form text is whitespace only. -/
def sampleBlankState : AppState :=
  { sampleState with task := "   " }

/-! ### Helper lemmas -/

/-- Setting an index to the value it already holds leaves the list unchanged. -/
theorem set_of_getElem? {α : Type} :
    ∀ (l : List α) (i : Nat) (t : α), l[i]? = some t → l.set i t = l
  | [], _, _, h => by simp at h
  | a :: as, 0, t, h => by
    simp at h
    simp [h]
  | a :: as, n + 1, t, h => by
    simp at h
    simp [set_of_getElem? as n t h]

/-- Closed form of the indexed filter used by `deleteTask`: it removes the
element at position `index` when that position exists, and keeps the list
unchanged otherwise. -/
theorem filterIdxAux_ne :
    ∀ (ts : List Task) (i index : Int),
      filterIdxAux (fun j => j ≠ index) i ts =
        if i ≤ index ∧ index < i + ts.length
        then ts.take (index - i).toNat ++ ts.drop ((index - i).toNat + 1)
        else ts
  | [], i, index => by
    rw [filterIdxAux]
    have hc : ¬ (i ≤ index ∧ index < i + ([] : List Task).length) := by
      simp
    rw [if_neg hc]
  | a :: as, i, index => by
    rw [filterIdxAux]
    by_cases hii : i = index
    · rw [if_neg (by simp [hii] : ¬ ((decide (i ≠ index)) = true))]
      rw [filterIdxAux_ne as (i + 1) index]
      have hc : ¬ (i + 1 ≤ index ∧ index < i + 1 + as.length) := by omega
      rw [if_neg hc]
      have hc2 : i ≤ index ∧ index < i + (a :: as).length := by
        simp
        omega
      rw [if_pos hc2]
      have h0 : (index - i).toNat = 0 := by omega
      rw [h0]
      simp
    · rw [if_pos (by simp [hii] : (decide (i ≠ index)) = true)]
      rw [filterIdxAux_ne as (i + 1) index]
      by_cases hc : i ≤ index ∧ index < i + (a :: as).length
      · have hc1 : i + 1 ≤ index ∧ index < i + 1 + as.length := by
          simp at hc
          constructor
          · omega
          · omega
        rw [if_pos hc1, if_pos hc]
        have hm : (index - i).toNat = (index - (i + 1)).toNat + 1 := by omega
        rw [hm]
        simp
      · have hc1 : ¬ (i + 1 ≤ index ∧ index < i + 1 + as.length) := by
          simp at hc ⊢
          omega
        rw [if_neg hc1, if_neg hc]

/-- The indexed filter only ever removes elements. -/
theorem filterIdxAux_sublist (p : Int → Bool) :
    ∀ (ts : List Task) (i : Int), List.Sublist (filterIdxAux p i ts) ts
  | [], _ => List.Sublist.refl []
  | a :: as, i => by
    rw [filterIdxAux]
    by_cases hp : p i
    · rw [if_pos hp]
      exact List.Sublist.cons₂ a (filterIdxAux_sublist p as (i + 1))
    · rw [if_neg hp]
      exact List.Sublist.cons a (filterIdxAux_sublist p as (i + 1))

/-- In-range characterisation of `deleteTask`: the list splits around the
removed position. -/
theorem deleteTask_eq_take_drop (ts : List Task) (k : Nat) (hk : k < ts.length) :
    deleteTask (k : Int) ts = ts.take k ++ ts.drop (k + 1) := by
  rw [deleteTask, filterIdxAux_ne]
  have hc : (0 : Int) ≤ (k : Int) ∧ (k : Int) < 0 + ts.length := by
    constructor
    · exact Int.ofNat_nonneg k
    · omega
  rw [if_pos hc]
  have h0 : ((k : Int) - 0).toNat = k := by omega
  rw [h0]

/-- Unfolding of `addTask` in the append branch. -/
theorem addTask_append_eq (s : AppState) (now : Nat)
    (he : s.editingIndex = none) (hne : isBlank s.task = false) :
    addTask now s =
      some { s with
               tasks := s.tasks ++
                 [{ task := s.task, priority := s.priority, category := s.category,
                    completed := false, id := toString now }],
               task := "", priority := "Medium", category := "Work" } := by
  unfold addTask
  rw [hne, he]
  simp

/-- Unfolding of `addTask` in the editing branch. -/
theorem addTask_edit_eq (s : AppState) (now : Nat) (i : Nat) (t : Task)
    (he : s.editingIndex = some i) (ht : s.tasks[i]? = some t)
    (hne : isBlank s.task = false) :
    addTask now s =
      some { s with
               tasks := s.tasks.set i
                 { t with task := s.task, priority := s.priority, category := s.category },
               editingIndex := none,
               task := "", priority := "Medium", category := "Work" } := by
  unfold addTask
  rw [hne, he]
  simp only [Bool.false_eq_true, if_false]
  simp only [ht]

/-! ### Claim theorems -/

/-- C1: with no editing target and a form text that is non-empty after
trimming, `addTask` appends exactly one new task at the end, carrying the
form values and `completed = false`; the length grows by 1 and every
pre-existing task is unchanged. -/
theorem addTask_appends (s : AppState) (now : Nat)
    (he : s.editingIndex = none) (hne : isBlank s.task = false) :
    ∃ s', addTask now s = some s' ∧
      s'.tasks = s.tasks ++
        [{ task := s.task, priority := s.priority, category := s.category,
           completed := false, id := toString now }] ∧
      s'.tasks.length = s.tasks.length + 1 ∧
      s'.tasks[s.tasks.length]? =
        some { task := s.task, priority := s.priority, category := s.category,
               completed := false, id := toString now } ∧
      (∀ j, j < s.tasks.length → s'.tasks[j]? = s.tasks[j]?) := by
  refine ⟨_, addTask_append_eq s now he hne, rfl, by simp, ?_, ?_⟩
  · exact List.getElem?_concat_length s.tasks _
  · intro j hj
    show (s.tasks ++ [_])[j]? = s.tasks[j]?
    rw [List.getElem?_append]
    rw [if_pos hj]

/-- C1 witness: the theorem applied to a concrete state. -/
theorem addTask_appends_witness :
    ∃ s', addTask 100 sampleState = some s' ∧
      s'.tasks = sampleState.tasks ++
        [{ task := sampleState.task, priority := sampleState.priority,
           category := sampleState.category, completed := false, id := toString 100 }] ∧
      s'.tasks.length = sampleState.tasks.length + 1 ∧
      s'.tasks[sampleState.tasks.length]? =
        some { task := sampleState.task, priority := sampleState.priority,
               category := sampleState.category, completed := false, id := toString 100 } ∧
      (∀ j, j < sampleState.tasks.length → s'.tasks[j]? = sampleState.tasks[j]?) :=
  addTask_appends sampleState 100 rfl (by decide)

/-- C2: with a form text that is blank (empty or whitespace only), `addTask`
returns the state unchanged, editing or not, with no error signalled. -/
theorem addTask_blank_noop (s : AppState) (now : Nat) (h : isBlank s.task = true) :
    addTask now s = some s := by
  unfold addTask
  rw [h]
  simp

/-- C2 witness: the theorem applied to a concrete whitespace-only form. -/
theorem addTask_blank_noop_witness :
    addTask 5 sampleBlankState = some sampleBlankState :=
  addTask_blank_noop sampleBlankState 5 (by decide)

/-- C8: whenever `addTask` succeeds on a non-blank form text, the form is
reset to `""`, `"Medium"`, `"Work"` and the editing index is cleared, in both
the append and the editing case. -/
theorem addTask_clears_form (s : AppState) (now : Nat) (s' : AppState)
    (hne : isBlank s.task = false) (h : addTask now s = some s') :
    s'.task = "" ∧ s'.priority = "Medium" ∧ s'.category = "Work" ∧
      s'.editingIndex = none := by
  unfold addTask at h
  rw [hne] at h
  simp only [Bool.false_eq_true, if_false] at h
  cases hei : s.editingIndex with
  | none =>
    rw [hei] at h
    simp only [Option.some.injEq] at h
    subst h
    exact ⟨rfl, rfl, rfl, rfl⟩
  | some i =>
    rw [hei] at h
    cases hti : s.tasks[i]? with
    | none =>
      simp only [hti] at h
      exact absurd h (by simp)
    | some t =>
      simp only [hti, Option.some.injEq] at h
      subst h
      exact ⟨rfl, rfl, rfl, rfl⟩

/-- C8 witness: the theorem applied to a concrete editing state. -/
theorem addTask_clears_form_witness :
    ({ task := "", priority := "Medium", category := "Work",
       tasks := sampleTasks.set 1
         { tB with task := "buy milk", priority := "High", category := "Personal" },
       editingIndex := none } : AppState).task = "" ∧
    ({ task := "", priority := "Medium", category := "Work",
       tasks := sampleTasks.set 1
         { tB with task := "buy milk", priority := "High", category := "Personal" },
       editingIndex := none } : AppState).priority = "Medium" ∧
    ({ task := "", priority := "Medium", category := "Work",
       tasks := sampleTasks.set 1
         { tB with task := "buy milk", priority := "High", category := "Personal" },
       editingIndex := none } : AppState).category = "Work" ∧
    ({ task := "", priority := "Medium", category := "Work",
       tasks := sampleTasks.set 1
         { tB with task := "buy milk", priority := "High", category := "Personal" },
       editingIndex := none } : AppState).editingIndex = none :=
  addTask_clears_form sampleEditState 7 _ (by decide) (by decide)

/-- C9: out of range (negative or at least the length), `deleteTask` leaves
the task list unchanged. -/
theorem deleteTask_out_of_range (ts : List Task) (i : Int)
    (h : i < 0 ∨ (ts.length : Int) ≤ i) : deleteTask i ts = ts := by
  rw [deleteTask, filterIdxAux_ne]
  rw [if_neg (by omega)]

/-- C9 witness: deleting at index 5 of a 3-element list is a no-op. -/
theorem deleteTask_out_of_range_witness : deleteTask 5 sampleTasks = sampleTasks :=
  deleteTask_out_of_range sampleTasks 5 (by decide)

/-- C10: `deleteTask` never modifies the form fields or the editing index,
for every index, including the one being edited. -/
theorem deleteTask_frame (s : AppState) (i : Int) :
    (deleteTaskState i s).task = s.task ∧
    (deleteTaskState i s).priority = s.priority ∧
    (deleteTaskState i s).category = s.category ∧
    (deleteTaskState i s).editingIndex = s.editingIndex :=
  ⟨rfl, rfl, rfl, rfl⟩

/-- An index with a value is in range. -/
theorem lt_length_of_getElem? {α : Type} {l : List α} {i : Nat} {a : α}
    (h : l[i]? = some a) : i < l.length := by
  by_contra hc
  rw [List.getElem?_eq_none (Nat.le_of_not_lt hc)] at h
  exact absurd h (by simp)

/-- C3: in editing mode with an in-range stored index and a non-blank form
text, `addTask` overwrites only the text, priority and category of the task
at that index, keeping its `id` and `completed`, its position, the list
length, and every other task. -/
theorem addTask_edit_updates (s : AppState) (now : Nat) (i : Nat) (t : Task)
    (he : s.editingIndex = some i) (ht : s.tasks[i]? = some t)
    (hne : isBlank s.task = false) :
    ∃ s', addTask now s = some s' ∧
      s'.tasks.length = s.tasks.length ∧
      s'.tasks[i]? =
        some { task := s.task, priority := s.priority, category := s.category,
               completed := t.completed, id := t.id } ∧
      (∀ j, j ≠ i → s'.tasks[j]? = s.tasks[j]?) := by
  have hi : i < s.tasks.length := lt_length_of_getElem? ht
  refine ⟨_, addTask_edit_eq s now i t he ht hne, List.length_set .., ?_, ?_⟩
  · exact List.getElem?_set_self hi
  · intro j hj
    exact List.getElem?_set_ne (Ne.symm hj)

/-- C3 witness: the theorem applied to a concrete editing state. -/
theorem addTask_edit_updates_witness :
    ∃ s', addTask 7 sampleEditState = some s' ∧
      s'.tasks.length = sampleEditState.tasks.length ∧
      s'.tasks[1]? =
        some { task := sampleEditState.task, priority := sampleEditState.priority,
               category := sampleEditState.category,
               completed := tB.completed, id := tB.id } ∧
      (∀ j, j ≠ 1 → s'.tasks[j]? = sampleEditState.tasks[j]?) :=
  addTask_edit_updates sampleEditState 7 1 tB rfl (by decide) (by decide)

/-- C4: deleting an in-range index removes exactly that task: the length
drops by 1, lower indices are untouched, and every higher index shifts down
by one. -/
theorem deleteTask_in_range (ts : List Task) (i : Nat) (hi : i < ts.length) :
    (deleteTask (i : Int) ts).length = ts.length - 1 ∧
    (∀ j, j < i → (deleteTask (i : Int) ts)[j]? = ts[j]?) ∧
    (∀ j, i < j → j < ts.length → (deleteTask (i : Int) ts)[j - 1]? = ts[j]?) := by
  rw [deleteTask_eq_take_drop ts i hi]
  refine ⟨?_, ?_, ?_⟩
  · simp only [List.length_append, List.length_take, List.length_drop]
    omega
  · intro j hj
    have hlt : j < (ts.take i).length := by
      simp only [List.length_take]
      omega
    rw [List.getElem?_append, if_pos hlt, List.getElem?_take, if_pos hj]
  · intro j hij hjl
    have hlen : (ts.take i).length = i := by
      simp only [List.length_take]
      omega
    rw [List.getElem?_append_right (by omega : (ts.take i).length ≤ j - 1)]
    rw [hlen, List.getElem?_drop]
    have harith : i + 1 + (j - 1 - i) = j := by omega
    rw [harith]

/-- C4 witness: the theorem applied at index 1 of a concrete 3-element
list. -/
theorem deleteTask_in_range_witness :
    (deleteTask (1 : Int) sampleTasks).length = sampleTasks.length - 1 ∧
    (∀ j, j < 1 → (deleteTask (1 : Int) sampleTasks)[j]? = sampleTasks[j]?) ∧
    (∀ j, 1 < j → j < sampleTasks.length →
      (deleteTask (1 : Int) sampleTasks)[j - 1]? = sampleTasks[j]?) :=
  deleteTask_in_range sampleTasks 1 (by decide)

/-- C5: toggling an in-range index flips only that `completed` field, keeps
the other fields and the other tasks, and toggling twice restores the
original list. -/
theorem toggleCompletion_involution (ts : List Task) (i : Nat) (t : Task)
    (ht : ts[i]? = some t) :
    ∃ ts', toggleTaskCompletion i ts = some ts' ∧
      ts'.length = ts.length ∧
      ts'[i]? =
        some { task := t.task, priority := t.priority, category := t.category,
               completed := !t.completed, id := t.id } ∧
      (∀ j, j ≠ i → ts'[j]? = ts[j]?) ∧
      toggleTaskCompletion i ts' = some ts := by
  have hi : i < ts.length := lt_length_of_getElem? ht
  refine ⟨ts.set i { t with completed := !t.completed }, ?_, List.length_set .., ?_, ?_, ?_⟩
  · unfold toggleTaskCompletion
    simp only [ht]
  · exact List.getElem?_set_self hi
  · intro j hj
    exact List.getElem?_set_ne (Ne.symm hj)
  · unfold toggleTaskCompletion
    simp only [List.getElem?_set_self hi, List.set_set, Bool.not_not]
    exact congrArg some (set_of_getElem? ts i t ht)

/-- C5 witness: the theorem applied at index 0 of a concrete list. -/
theorem toggleCompletion_involution_witness :
    ∃ ts', toggleTaskCompletion 0 sampleTasks = some ts' ∧
      ts'.length = sampleTasks.length ∧
      ts'[0]? =
        some { task := tA.task, priority := tA.priority, category := tA.category,
               completed := !tA.completed, id := tA.id } ∧
      (∀ j, j ≠ 0 → ts'[j]? = sampleTasks[j]?) ∧
      toggleTaskCompletion 0 ts' = some sampleTasks :=
  toggleCompletion_involution sampleTasks 0 tA (by decide)

/-- Task ids are untouched when a task is overwritten with one of equal id. -/
theorem taskIds_set_id_eq (ts : List Task) (i : Nat) (u t : Task)
    (ht : ts[i]? = some t) (hid : u.id = t.id) :
    taskIds (ts.set i u) = taskIds ts := by
  unfold taskIds
  rw [List.map_set, hid]
  apply set_of_getElem?
  rw [List.getElem?_map, ht]
  rfl

/-- `addTask` leaves the id sequence unchanged or appends the one fresh id. -/
theorem taskIds_addTask (s : AppState) (now : Nat) (s' : AppState)
    (h : addTask now s = some s') :
    taskIds s'.tasks = taskIds s.tasks ∨
      taskIds s'.tasks = taskIds s.tasks ++ [toString now] := by
  unfold addTask at h
  cases hb : isBlank s.task with
  | true =>
    rw [hb] at h
    simp only [if_true] at h
    simp only [Option.some.injEq] at h
    subst h
    exact Or.inl rfl
  | false =>
    rw [hb] at h
    simp only [Bool.false_eq_true, if_false] at h
    cases hei : s.editingIndex with
    | none =>
      rw [hei] at h
      simp only [Option.some.injEq] at h
      subst h
      right
      simp [taskIds]
    | some i =>
      rw [hei] at h
      cases hti : s.tasks[i]? with
      | none =>
        simp only [hti] at h
        exact absurd h (by simp)
      | some t =>
        simp only [hti, Option.some.injEq] at h
        subst h
        exact Or.inl (taskIds_set_id_eq s.tasks i _ t hti rfl)

/-- `toggleTaskCompletion` leaves the id sequence unchanged. -/
theorem taskIds_toggleState (s : AppState) (i : Nat) (s' : AppState)
    (h : toggleState i s = some s') : taskIds s'.tasks = taskIds s.tasks := by
  unfold toggleState toggleTaskCompletion at h
  cases hti : s.tasks[i]? with
  | none =>
    simp only [hti] at h
    exact absurd h (by simp)
  | some t =>
    simp only [hti, Option.some.injEq] at h
    subst h
    exact taskIds_set_id_eq s.tasks i _ t hti rfl

/-- `editTask` does not modify the task list. -/
theorem editTask_tasks_eq (s : AppState) (i : Nat) (s' : AppState)
    (h : editTask i s = some s') : s'.tasks = s.tasks := by
  unfold editTask at h
  cases hti : s.tasks[i]? with
  | none =>
    simp only [hti] at h
    exact absurd h (by simp)
  | some t =>
    simp only [hti, Option.some.injEq] at h
    subst h
    rfl

/-- C7: every operation preserves the relative order of the tasks it does not
remove, and new tasks only ever appear appended at the end: `addTask` either
changes nothing, appends one task, or overwrites one position in place; with
no editing target it appends the new task at the end; `deleteTask` returns a
sublist; `toggleTaskCompletion` overwrites one position in place; `editTask`
leaves the list untouched. -/
theorem order_preservation :
    (∀ s now s', addTask now s = some s' →
       s'.tasks = s.tasks ∨
       (∃ t, s'.tasks = s.tasks ++ [t]) ∨
       (∃ i t, s'.tasks = s.tasks.set i t)) ∧
    (∀ s now, s.editingIndex = none → isBlank s.task = false →
       ∃ s', addTask now s = some s' ∧
         s'.tasks = s.tasks ++
           [{ task := s.task, priority := s.priority, category := s.category,
              completed := false, id := toString now }]) ∧
    (∀ ts i, List.Sublist (deleteTask i ts) ts) ∧
    (∀ ts i ts', toggleTaskCompletion i ts = some ts' → ∃ t, ts' = ts.set i t) ∧
    (∀ s i s', editTask i s = some s' → s'.tasks = s.tasks) := by
  refine ⟨?_, ?_, ?_, ?_, editTask_tasks_eq⟩
  · intro s now s' h
    unfold addTask at h
    cases hb : isBlank s.task with
    | true =>
      rw [hb] at h
      simp only [if_true, Option.some.injEq] at h
      subst h
      exact Or.inl rfl
    | false =>
      rw [hb] at h
      simp only [Bool.false_eq_true, if_false] at h
      cases hei : s.editingIndex with
      | none =>
        rw [hei] at h
        simp only [Option.some.injEq] at h
        subst h
        exact Or.inr (Or.inl ⟨_, rfl⟩)
      | some i =>
        rw [hei] at h
        cases hti : s.tasks[i]? with
        | none =>
          simp only [hti] at h
          exact absurd h (by simp)
        | some t =>
          simp only [hti, Option.some.injEq] at h
          subst h
          exact Or.inr (Or.inr ⟨i, _, rfl⟩)
  · intro s now he hne
    exact ⟨_, addTask_append_eq s now he hne, rfl⟩
  · intro ts i
    exact filterIdxAux_sublist _ ts 0
  · intro ts i ts' h
    unfold toggleTaskCompletion at h
    cases hti : ts[i]? with
    | none =>
      simp only [hti] at h
      exact absurd h (by simp)
    | some t =>
      simp only [hti, Option.some.injEq] at h
      exact ⟨_, h.symm⟩

/-- C7 witness: the order facts applied at concrete inputs. -/
theorem order_preservation_witness :
    List.Sublist (deleteTask 1 sampleTasks) sampleTasks ∧
    (∃ s', addTask 100 sampleState = some s' ∧
       s'.tasks = sampleState.tasks ++
         [{ task := sampleState.task, priority := sampleState.priority,
            category := sampleState.category, completed := false, id := toString 100 }]) :=
  ⟨order_preservation.2.2.1 sampleTasks 1,
   order_preservation.2.1 sampleState 100 rfl (by decide)⟩

/-- C6 counterexample: two submissions whose `Date.now()` calls fall in the
same millisecond produce a reachable state with two tasks sharing id
`"100"`, so ids are not unique in every reachable state. -/
theorem duplicate_id_reachable :
    Reachable { task := "", priority := "Medium", category := "Work",
                tasks := [{ task := "a", priority := "Medium", category := "Work",
                            completed := false, id := "100" },
                          { task := "b", priority := "Medium", category := "Work",
                            completed := false, id := "100" }],
                editingIndex := none } ∧
    ¬ (taskIds [{ task := "a", priority := "Medium", category := "Work",
                  completed := false, id := "100" },
                { task := "b", priority := "Medium", category := "Work",
                  completed := false, id := "100" }]).Nodup := by
  constructor
  · have h1 : Reachable ({ task := "a", priority := "Medium", category := "Work",
                           tasks := [], editingIndex := none } : AppState) :=
      Reachable.step Reachable.init (Step.setTask initialState "a")
    have h2 : Reachable ({ task := "", priority := "Medium", category := "Work",
                           tasks := [{ task := "a", priority := "Medium",
                                       category := "Work", completed := false,
                                       id := "100" }],
                           editingIndex := none } : AppState) :=
      Reachable.step h1 (Step.add _ _ 100 (by decide))
    have h3 : Reachable ({ task := "b", priority := "Medium", category := "Work",
                           tasks := [{ task := "a", priority := "Medium",
                                       category := "Work", completed := false,
                                       id := "100" }],
                           editingIndex := none } : AppState) :=
      Reachable.step h2 (Step.setTask _ "b")
    exact Reachable.step h3 (Step.add _ _ 100 (by decide))
  · decide

/-- C6 amended: ids are immutable (every step keeps the id sequence, appends
one id, or only removes ids), and they are unique in every state reachable
when each submission receives a clock value whose string is not already an
id in the list. -/
theorem id_invariants :
    (∀ s, ReachableFresh s → (taskIds s.tasks).Nodup) ∧
    (∀ s s', Step s s' →
       taskIds s'.tasks = taskIds s.tasks ∨
       (∃ x, taskIds s'.tasks = taskIds s.tasks ++ [x]) ∨
       List.Sublist (taskIds s'.tasks) (taskIds s.tasks)) := by
  constructor
  · intro s hr
    induction hr with
    | init => exact List.nodup_nil
    | setTask t _ ih => exact ih
    | setPriority p _ ih => exact ih
    | setCategory c _ ih => exact ih
    | add now _ h hfresh ih =>
      rcases taskIds_addTask _ _ _ h with h1 | h1
      · rw [h1]
        exact ih
      · rw [h1, List.nodup_append]
        exact ⟨ih, List.nodup_singleton _, by
          intro a ha hax
          simp only [List.mem_singleton] at hax
          exact hfresh (hax ▸ ha)⟩
    | del i _ ih =>
      exact List.Nodup.sublist (List.Sublist.map Task.id (filterIdxAux_sublist _ _ 0)) ih
    | toggle i _ h ih =>
      rw [taskIds_toggleState _ _ _ h]
      exact ih
    | edit i _ h ih =>
      rw [show taskIds _ = _ from congrArg taskIds (editTask_tasks_eq _ _ _ h)]
      exact ih
  · intro s s' hstep
    cases hstep with
    | setTask t => exact Or.inl rfl
    | setPriority p => exact Or.inl rfl
    | setCategory c => exact Or.inl rfl
    | add s2 now h =>
      rcases taskIds_addTask _ _ _ h with h1 | h1
      · exact Or.inl h1
      · exact Or.inr (Or.inl ⟨_, h1⟩)
    | del i =>
      exact Or.inr (Or.inr (List.Sublist.map Task.id (filterIdxAux_sublist _ _ 0)))
    | toggle s2 i h =>
      exact Or.inl (taskIds_toggleState _ _ _ h)
    | edit s2 i h =>
      exact Or.inl (congrArg taskIds (editTask_tasks_eq _ _ _ h))

/-- C6 amended witness: uniqueness at the initial state and the id evolution
of a concrete delete step. -/
theorem id_invariants_witness :
    (taskIds initialState.tasks).Nodup ∧
    (taskIds (deleteTaskState 1 sampleState).tasks = taskIds sampleState.tasks ∨
     (∃ x, taskIds (deleteTaskState 1 sampleState).tasks =
        taskIds sampleState.tasks ++ [x]) ∨
     List.Sublist (taskIds (deleteTaskState 1 sampleState).tasks)
       (taskIds sampleState.tasks)) :=
  ⟨id_invariants.1 initialState ReachableFresh.init,
   id_invariants.2 sampleState (deleteTaskState 1 sampleState) (Step.del sampleState 1)⟩

end Todo
